import Mathlib

/-!
# Verification of the call-analytics pipeline

A shallow embedding of the core of the call-analytics repository
(analysis orchestrator, normalizer, schema validator, vector dimension
adapter, intent clustering engine) together with proofs and refutations
of the specification claims.

Numbers that are JavaScript floating-point values in the source are
modelled as exact rationals.  JavaScript strings are modelled as Lean
strings over their character lists.
-/

namespace CallAnalytics

/-! ## Small JavaScript-semantics helpers -/

/-- Math.max(0, Math.min(1, n)) as used throughout the source. -/
def clamp01 (n : ℚ) : ℚ := max 0 (min 1 n)

/-- JavaScript String(x) applied to a value that is either a string or
absent (undefined): String(undefined) is the string "undefined". -/
def jsStr (o : Option String) : String := o.getD "undefined"

/-- JavaScript whitespace test used by String.trim and the \s regex
class; modelled by Lean's character whitespace test (they agree on the
ASCII whitespace that occurs in this pipeline). -/
def jsIsSpace (c : Char) : Bool := c.isWhitespace

/-- s.trim() on the character list: drop whitespace from both ends. -/
def jsTrimList (s : List Char) : List Char :=
  ((s.dropWhile jsIsSpace).reverse.dropWhile jsIsSpace).reverse

/-- s.trim() on strings. -/
def jsTrimStr (s : String) : String := String.mk (jsTrimList s.data)

/-- s.toLowerCase() (ASCII case mapping, as in Char.toLower). -/
def lowerList (s : List Char) : List Char := s.map Char.toLower

/-- s.toLowerCase() on strings. -/
def lowerStr (s : String) : String := String.mk (lowerList s.data)

/-- Does the list start with the given pattern? -/
def startsWithPat : List Char → List Char → Bool
  | _, [] => true
  | [], _ :: _ => false
  | b :: ls, a :: ps => a == b && startsWithPat ls ps

/-- Substring containment: regex /pat/.test(s) for a literal pattern
pat, i.e. pat occurs contiguously somewhere in s. -/
def hasSub : List Char → List Char → Bool
  | l, p =>
    if startsWithPat l p then true
    else
      match l with
      | [] => false
      | _ :: t => hasSub t p

/-! ## Vector Dimension Adapter (src/app/api/analyze/route.ts, fitVectorDimension) -/

/-- fitVectorDimension from the analyze route.  The JS parameter
`dimension?: number` is an optional integer (Pinecone index dimension);
`typeof dimension !== 'number'` is the `none` case.  The zero-filled
array overwritten by the first `vector.length` entries is the vector
followed by trailing zeros. -/
def fitVectorDimension (vector : List ℚ) (dimension : Option ℤ) : List ℚ :=
  match dimension with
  | none => vector
  | some d =>
    if d ≤ 0 then vector
    else if (vector.length : ℤ) = d then vector
    else if (vector.length : ℤ) > d then vector.take d.toNat
    else vector ++ List.replicate (d.toNat - vector.length) 0

/-! ## Normalizer (src/utils/normalization.ts) -/

/-- The call-type synonym table of NormalizedCallTypeSchema. -/
def callTypeMap : List (String × String) :=
  [("automated", "Automated"), ("bot", "Automated"), ("ivr", "Automated"),
   ("ai", "Automated"), ("escalated", "Escalated"), ("escalation", "Escalated"),
   ("external", "Escalated"), ("human", "Escalated"), ("agent", "Escalated")]

/-- NormalizedCallTypeSchema: trim and lower-case the label, map known
synonyms onto the enumeration, pass unmapped input through unchanged. -/
def normalizeCallTypeStr (val : String) : String :=
  let normalized := lowerStr (jsTrimStr val)
  (callTypeMap.lookup normalized).getD val

/-- Separator class of the regex [_\s-] in NormalizedSuccessCategorySchema. -/
def isSep (c : Char) : Bool := c == '_' || c == '-' || jsIsSpace c

/-- Worker for collapseSeps; the flag records whether the previous
character was a separator (so that a maximal run of separators turns
into exactly one space). -/
def collapseAux : Bool → List Char → List Char
  | _, [] => []
  | prev, c :: cs =>
    if isSep c then
      if prev then collapseAux true cs else ' ' :: collapseAux true cs
    else c :: collapseAux false cs

/-- s.replace(/[_\s-]+/g, ' '): every maximal run of separators becomes
one space. -/
def collapseSeps (s : List Char) : List Char := collapseAux false s

/-- NormalizedSuccessCategorySchema: trim, lower-case and collapse
separators, then apply the ordered substring rules of the source; on no
match return the original (untransformed) input. -/
def normalizeSuccessCategory (val : String) : String :=
  let compact := collapseSeps (lowerList (jsTrimList val.data))
  if hasSub compact "partial".data || hasSub compact "partially".data then
    "Partially Successful"
  else if hasSub compact "success".data || hasSub compact "passed".data ||
      hasSub compact "pass".data || hasSub compact "ok".data ||
      hasSub compact "resolved".data then
    "Successful"
  else if hasSub compact "fail".data || hasSub compact "unsuccess".data then
    "Unsuccessful"
  else val

/-- The success-category rules exactly as the specification claim words
them: after lower-casing, trimming and collapsing separators, any
occurrence of "partial"/"partially" gives Partially Successful; else an
occurrence of "success", "pass", "ok" or "resolved" gives Successful;
else an occurrence of "fail" or "unsuccess" gives Unsuccessful; else the
original string passes through unchanged. -/
def specNormalizeSuccessCategory (val : String) : String :=
  let compact := collapseSeps (lowerList (jsTrimList val.data))
  if hasSub compact "partial".data || hasSub compact "partially".data then
    "Partially Successful"
  else if hasSub compact "success".data || hasSub compact "pass".data ||
      hasSub compact "ok".data || hasSub compact "resolved".data then
    "Successful"
  else if hasSub compact "fail".data || hasSub compact "unsuccess".data then
    "Unsuccessful"
  else val

/-! ## Data model: candidate records (src/utils/schemas.ts) -/

/-- A loosely-typed product entry as it may arrive in the candidate
object fed to normalizeFinal (fields may be absent). -/
structure RawProduct where
  id : Option String
  name : Option String
  score : Option ℚ
  brand : Option String
  category : Option String
deriving DecidableEq, Repr

/-- A normalized product entry (output of the product coercion in
normalizeFinal, and element type of the products list assembled by the
analyze route). -/
structure NProduct where
  id : String
  name : String
  score : ℚ
  brand : Option String
  category : Option String
deriving DecidableEq, Repr

/-- FinalSchema's product shape: { id, name, score } (Zod strips the
undeclared brand/category keys on parse). -/
structure Product where
  id : String
  name : String
  score : ℚ
deriving DecidableEq, Repr

/-- A loosely-typed keyword entry. -/
structure RawKeyword where
  term : Option String
  score : Option ℚ
deriving DecidableEq, Repr

/-- FinalSchema's keyword shape { term, score }. -/
structure Keyword where
  term : String
  score : ℚ
deriving DecidableEq, Repr

/-- Metadata blob carried by a related document (a JSON record; its
contents are never inspected by the core, so it is modelled as a list
of key/value pairs). -/
def Metadata := List (String × String)
deriving DecidableEq, Repr

/-- A loosely-typed related-document entry. -/
structure RawDoc where
  id : Option String
  score : Option ℚ
  metadata : Option Metadata
deriving DecidableEq, Repr

/-- FinalSchema's relatedDoc shape { id, score, metadata? }. -/
structure RelatedDoc where
  id : String
  score : ℚ
  metadata : Option Metadata
deriving DecidableEq, Repr

/-- The candidate object handed to normalizeFinal / FinalSchema: the
shape composed by the analyze route, with the product/keyword/doc
entries loosely typed.  (The source types the candidate as `unknown`;
the non-object and non-string/array/number field cases, which the
source's typeof guards simply skip, are outside this typed model.) -/
structure RawCandidate where
  callType : String
  successCategory : String
  intent : String
  intentCategory : String
  confidence : ℚ
  summary : String
  keyPoints : List String
  actionItems : List String
  escalationReason : Option String
  products : List RawProduct
  keywords : List RawKeyword
  relatedDocs : List RawDoc
  pineconeRecordId : Option String
deriving DecidableEq, Repr

/-- A record accepted by FinalSchema (the validated AnalysisRecord). -/
structure Candidate where
  callType : String
  successCategory : String
  intent : String
  intentCategory : String
  confidence : ℚ
  summary : String
  keyPoints : List String
  actionItems : List String
  escalationReason : Option String
  products : List Product
  keywords : List Keyword
  relatedDocs : List RelatedDoc
  pineconeRecordId : Option String
deriving DecidableEq, Repr

/-! ## Schema & Invariant Layer (FinalSchema.safeParse) -/

/-- Element check of FinalSchema's products array:
z.object({ id: z.string(), name: z.string(), score: z.number().min(0).max(1) });
absent fields fail, undeclared fields are stripped. -/
def parseProduct (p : RawProduct) : Option Product :=
  match p.id, p.name, p.score with
  | some i, some n, some s => if 0 ≤ s ∧ s ≤ 1 then some ⟨i, n, s⟩ else none
  | _, _, _ => none

/-- Element check of FinalSchema's keywords array. -/
def parseKeyword (k : RawKeyword) : Option Keyword :=
  match k.term, k.score with
  | some t, some s => if 0 ≤ s ∧ s ≤ 1 then some ⟨t, s⟩ else none
  | _, _ => none

/-- Element check of FinalSchema's relatedDocs array (score unbounded,
metadata optional). -/
def parseDoc (d : RawDoc) : Option RelatedDoc :=
  match d.id, d.score with
  | some i, some s => some ⟨i, s, d.metadata⟩
  | _, _ => none

/-- The per-field (non-cross-field) checks of FinalSchema on the scalar
and string-array fields. -/
def fieldChecks (r : RawCandidate) : Bool :=
  (r.callType == "Automated" || r.callType == "Escalated") &&
  (r.successCategory == "Successful" || r.successCategory == "Partially Successful" ||
    r.successCategory == "Unsuccessful") &&
  (r.intent != "") && (r.intentCategory != "") &&
  (decide (0 ≤ r.confidence) && decide (r.confidence ≤ 1)) &&
  (r.summary != "") &&
  (!r.keyPoints.isEmpty) && r.keyPoints.all (fun k => k != "") &&
  r.actionItems.all (fun a => a != "")

/-- FinalSchema's superRefine: the CallType/SuccessCategory cross-field
invariant. -/
def invariantB (r : RawCandidate) : Bool :=
  !(r.callType == "Automated" && r.successCategory == "Partially Successful") &&
  !(r.callType == "Escalated" && r.successCategory == "Successful")

/-- FinalSchema.safeParse: the single validation operation of the
Schema & Invariant Layer.  Returns the validated, strongly-typed record
or nothing. -/
def finalSafeParse (r : RawCandidate) : Option Candidate :=
  match r.products.mapM parseProduct, r.keywords.mapM parseKeyword,
      r.relatedDocs.mapM parseDoc with
  | some ps, some ks, some ds =>
    if fieldChecks r && invariantB r then
      some ⟨r.callType, r.successCategory, r.intent, r.intentCategory, r.confidence,
        r.summary, r.keyPoints, r.actionItems, r.escalationReason, ps, ks, ds,
        r.pineconeRecordId⟩
    else none
  | _, _, _ => none

/-! ## normalizeFinal's repair pass -/

/-- The product coercion of normalizeFinal:
{ id: String(p.id), name: String(p.name ?? p.id), score: clamp01(Number(p.score ?? 0)),
  brand: p.brand ? String(p.brand) : undefined, category: likewise }. -/
def coerceProduct (p : RawProduct) : NProduct :=
  { id := jsStr p.id
    name := jsStr (p.name.or p.id)
    score := clamp01 (p.score.getD 0)
    brand := p.brand.bind (fun b => if b == "" then none else some b)
    category := p.category.bind (fun c => if c == "" then none else some c) }

/-- normalizeFinal's products step: map each entry through the coercion,
then keep an entry iff its id and name strings are truthy (non-empty). -/
def normalizeProducts (ps : List RawProduct) : List NProduct :=
  (ps.map coerceProduct).filter (fun p => p.id != "" && p.name != "")

/-- normalizeFinal's keywords step.  String(k.term ?? k) stringifies the
entry itself when term is absent, which for an object gives the literal
"[object Object]". -/
def normalizeKeywords (ks : List RawKeyword) : List Keyword :=
  (ks.map (fun k =>
    ({ term := k.term.getD "[object Object]"
       score := clamp01 (k.score.getD 0) } : Keyword))).filter
    (fun k => k.term != "")

/-- normalizeFinal's relatedDocs step. -/
def normalizeDocs (ds : List RawDoc) : List RelatedDoc :=
  (ds.map (fun d =>
    ({ id := jsStr d.id, score := d.score.getD 0, metadata := d.metadata } : RelatedDoc))).filter
    (fun d => d.id != "")

/-- View a normalized product entry as a (fully present) raw entry, as
the candidate object holds it after the in-place repair. -/
def toRawProduct (p : NProduct) : RawProduct :=
  ⟨some p.id, some p.name, some p.score, p.brand, p.category⟩

/-- View a keyword as a raw keyword entry. -/
def toRawKeyword (k : Keyword) : RawKeyword := ⟨some k.term, some k.score⟩

/-- View a related doc as a raw doc entry. -/
def toRawDoc (d : RelatedDoc) : RawDoc := ⟨some d.id, some d.score, d.metadata⟩

/-- The field-by-field repair performed by normalizeFinal before its
final FinalSchema.safeParse: call-type and success-category mapping,
trimming, empty-entry filtering, entry coercion and confidence
clamping.  escalationReason and pineconeRecordId are not touched. -/
def normalizeSteps (r : RawCandidate) : RawCandidate :=
  { callType := normalizeCallTypeStr r.callType
    successCategory := normalizeSuccessCategory r.successCategory
    intent := jsTrimStr r.intent
    intentCategory := jsTrimStr r.intentCategory
    confidence := clamp01 r.confidence
    summary := jsTrimStr r.summary
    keyPoints := (r.keyPoints.map jsTrimStr).filter (fun k => k != "")
    actionItems := (r.actionItems.map jsTrimStr).filter (fun a => a != "")
    escalationReason := r.escalationReason
    products := (normalizeProducts r.products).map toRawProduct
    keywords := (normalizeKeywords r.keywords).map toRawKeyword
    relatedDocs := (normalizeDocs r.relatedDocs).map toRawDoc
    pineconeRecordId := r.pineconeRecordId }

/-- normalizeFinal (src/utils/normalization.ts): best-effort repair of
the candidate followed by FinalSchema.safeParse; undefined (none) when
the repaired candidate still fails validation. -/
def normalizeFinal (r : RawCandidate) : Option Candidate :=
  finalSafeParse (normalizeSteps r)

/-! ## Analysis Orchestrator (src/app/api/analyze/route.ts, POST) -/

/-- Output of the classification pass (Step1Schema shape). -/
structure Step1Out where
  callType : String
  successCategory : String
  confidence : ℚ
  rationale : String
deriving DecidableEq, Repr

/-- Output of the intent pass (Step2Schema shape). -/
structure Step2Out where
  intent : String
  intentCategory : String
  confidence : ℚ
  rationale : String
deriving DecidableEq, Repr

/-- Output of the summary pass (Step3Schema shape). -/
structure Step3Out where
  summary : String
  keyPoints : List String
  actionItems : List String
deriving DecidableEq, Repr

/-- One AI-extracted product of the product pass. -/
structure AiProduct where
  name : String
  brand : Option String
  category : Option String
deriving DecidableEq, Repr

/-- Output of the product-extraction pass. -/
structure Step4Out where
  products : List AiProduct
deriving DecidableEq, Repr

/-- What the caught Pinecone search block contributes when it does not
throw: retrieval-derived products, keywords and related docs. -/
structure SearchOut where
  products : List NProduct
  keywords : List Keyword
  relatedDocs : List RelatedDoc
deriving DecidableEq, Repr

/-- The external collaborators of one analyze request.  Each generation
pass is an oracle from the attempt index (0 = first prompt, 1 = the
stricter retry prompt) to a schema-validated output or a thrown error;
the search block either yields its derived data or throws (none); the
storage block either yields the content-hash record id or throws. -/
structure Oracle where
  step1 : ℕ → Except String Step1Out
  step2 : ℕ → Except String Step2Out
  step3 : ℕ → Except String Step3Out
  step4 : ℕ → Except String Step4Out
  search : Option SearchOut
  storage : Except String String

/-- The classification pass with its retry-by-catch: on a first-attempt
failure the pass is re-run once with the stricter prompt, and a second
failure propagates. -/
def runStep1 (f : ℕ → Except String Step1Out) : Except String Step1Out :=
  match f 0 with
  | .ok v => .ok v
  | .error _ => f 1

/-- Alphanumeric test for the slug derivation (after lower-casing). -/
def isAlnum (c : Char) : Bool :=
  ('a' ≤ c && c ≤ 'z') || ('0' ≤ c && c ≤ '9')

/-- Worker for the slug: replace each maximal run of non-alphanumerics
by one hyphen (regex replace /[^a-z0-9]+/g, '-'). -/
def slugAux : Bool → List Char → List Char
  | _, [] => []
  | prev, c :: cs =>
    if isAlnum c then c :: slugAux false cs
    else if prev then slugAux true cs
    else '-' :: slugAux true cs

/-- name.toLowerCase().replace(/[^a-z0-9]+/g, '-').replace(/^-+|-+$/g, ''):
the slug id derived for an AI-extracted product. -/
def slug (name : String) : String :=
  let l := slugAux false (lowerList name.data)
  String.mk (((l.dropWhile (· == '-')).reverse.dropWhile (· == '-')).reverse)

/-- The dedup-and-append loop for AI-extracted products: seed the seen
set with the lower-cased names of the retrieval products, then push each
new trimmed product name with its slug id and fixed score 0.9. -/
def addAiAux : List String → List NProduct → List AiProduct → List NProduct
  | _, acc, [] => acc
  | seen, acc, p :: rest =>
    let productName := jsTrimStr p.name
    if productName != "" && !(seen.contains (lowerStr productName)) then
      addAiAux (seen ++ [lowerStr productName])
        (acc ++ [⟨slug productName, productName, 9/10, none, p.category⟩]) rest
    else addAiAux seen acc rest

/-- Merge AI-extracted products into the retrieval products list. -/
def addAiProducts (base : List NProduct) (ai : List AiProduct) : List NProduct :=
  addAiAux (base.map (fun p => lowerStr p.name)) base ai

/-- The candidate object composed from the pass outputs (route.ts,
"Compose final object and normalize"). -/
def mkComposed (s1 : Step1Out) (s2 : Step2Out) (s3 : Step3Out)
    (products : List NProduct) (keywords : List Keyword)
    (relatedDocs : List RelatedDoc) (pid : Option String) : RawCandidate :=
  { callType := s1.callType
    successCategory := s1.successCategory
    intent := s2.intent
    intentCategory := s2.intentCategory
    confidence := clamp01 ((s1.confidence + s2.confidence) / 2)
    summary := s3.summary
    keyPoints := s3.keyPoints
    actionItems := s3.actionItems
    escalationReason := if s1.callType == "Escalated" then some s1.rationale else none
    products := products.map toRawProduct
    keywords := keywords.map toRawKeyword
    relatedDocs := relatedDocs.map toRawDoc
    pineconeRecordId := pid }

/-- The tail of the analyze route: normalize the composed candidate
and return it, or fall back to validating the raw composed object
directly when normalization yields no record; a structured validation
error otherwise. -/
def finalizeCandidate (rc : RawCandidate) : Except String Candidate :=
  match normalizeFinal rc with
  | some r => .ok r
  | none =>
    match finalSafeParse rc with
    | some r => .ok r
    | none => .error "ValidationError"

/-- The analyze operation: run the four passes (only the classification
pass carries the one retry), absorb the caught search and storage
blocks, compose, normalize, and validate. -/
def analyze (o : Oracle) : Except String Candidate :=
  match runStep1 o.step1 with
  | .error e => .error e
  | .ok s1 =>
    match o.step2 0 with
    | .error e => .error e
    | .ok s2 =>
      match o.step3 0 with
      | .error e => .error e
      | .ok s3 =>
        match o.step4 0 with
        | .error e => .error e
        | .ok s4 =>
          let searchData := match o.search with
            | some s => (s.products, s.keywords, s.relatedDocs)
            | none => ([], [], [])
          let products := addAiProducts searchData.1 s4.products
          let pid := match o.storage with
            | .ok i => some i
            | .error _ => none
          finalizeCandidate
            (mkComposed s1 s2 s3 products searchData.2.1 searchData.2.2 pid)

/-! ## Intent Clustering Engine (src/app/analytics/intents/page.tsx) -/

/-- A cluster member: one distinct intent string with its call count. -/
structure Member where
  intent : String
  count : ℚ
deriving DecidableEq, Repr

/-- A cluster as the clustering loop holds it. -/
structure Cluster where
  primary : String
  members : List Member
  totalCount : ℚ
  embedding : List ℚ
deriving DecidableEq, Repr

/-- Dot product over the first a.length components (the JS loop runs
for i < a.length). -/
def dot (a b : List ℚ) : ℚ := (List.zipWith (· * ·) a b).sum

/-- Sum of squares (the normA/normB accumulators). -/
def normSq (a : List ℚ) : ℚ := dot a a

/-- Decides cosineSimilarity(a, b) ≥ τ exactly, where cosineSimilarity
is dot(a,b) / (√(normSq a) · √(normSq b)) computed over the first
a.length components of both vectors.

JS edge cases are preserved: if b is shorter than a, reading past its
end makes the similarity NaN and the comparison false; if either norm
is zero the similarity is NaN (0/0) and the comparison false.  For a
positive denominator, dot/√p ≥ τ is decided on squares, split on the
signs of dot and τ (simGE_iff_real below proves this encoding correct
against the real-valued formula). -/
def simGE (a b : List ℚ) (τ : ℚ) : Bool :=
  if b.length < a.length then false
  else
    let d := dot a b
    let p := normSq a * normSq (b.take a.length)
    if p = 0 then false
    else if 0 ≤ d then (decide (τ ≤ 0) || decide (τ ^ 2 * p ≤ d ^ 2))
    else (decide (τ ≤ 0) && decide (d ^ 2 ≤ τ ^ 2 * p))

/-- Insert a member into a list already sorted by descending count,
before the first member of no greater count.  This realizes the stable
descending sort members.sort((a, b) => b.count - a.count) (Array.sort
is stable), where the inserted element precedes all ties coming later
in the original order. -/
def insertDesc (x : Member) : List Member → List Member
  | [] => [x]
  | y :: ys => if y.count ≤ x.count then x :: y :: ys else y :: insertDesc x ys

/-- Stable sort by descending count. -/
def sortDesc : List Member → List Member
  | [] => []
  | x :: xs => insertDesc x (sortDesc xs)

/-- One merge of cluster j into cluster i, exactly as the source
mutates clusters[i]: concatenate the member lists, add the counts,
re-sort members and take the head as the new primary, and reweight the
centroid component-wise as
(eᵢ·(totalCount − totalCountⱼ) + eⱼ·totalCountⱼ) / totalCount
with totalCount the already-updated (post-addition) total. -/
def mergeInto (ci cj : Cluster) : Cluster :=
  let members := ci.members ++ cj.members
  let totalCount := ci.totalCount + cj.totalCount
  let sorted := sortDesc members
  { primary := match sorted with
      | m :: _ => m.intent
      | [] => ci.primary
    members := sorted
    totalCount := totalCount
    embedding := List.zipWith
      (fun x y => (x * (totalCount - cj.totalCount) + y * cj.totalCount) / totalCount)
      ci.embedding cj.embedding }

/-- Scan the tail for the first cluster similar to c; on a hit, merge
it into c and splice it out (the inner j loop). -/
def scanInner (τ : ℚ) (c : Cluster) : List Cluster → Option (Cluster × List Cluster)
  | [] => none
  | d :: ds =>
    if simGE c.embedding d.embedding τ then some (mergeInto c d, ds)
    else (scanInner τ c ds).map (fun r => (r.1, d :: r.2))

/-- One full pairwise scan in index order (the i loop): performs the
first merge found and returns the new cluster list, or none when no
pair is at or above the threshold. -/
def scanFrom (τ : ℚ) : List Cluster → Option (List Cluster)
  | [] => none
  | c :: rest =>
    match scanInner τ c rest with
    | some (c', rest') => some (c' :: rest')
    | none => (scanFrom τ rest).map (fun r => c :: r)

/-- The while (merged) loop, with explicit fuel; each iteration either
performs one merge (shrinking the list by one) or stops after a full
scan finds no pair.  Fuel equal to the initial cluster count always
suffices (theorem c10); with that fuel this equals the unbounded
source loop. -/
def loopFuel (τ : ℚ) : ℕ → List Cluster → List Cluster
  | 0, cs => cs
  | n + 1, cs =>
    match scanFrom τ cs with
    | some cs' => loopFuel τ n cs'
    | none => cs

/-- One initial cluster per distinct intent. -/
def initCluster (item : String × ℚ × List ℚ) : Cluster :=
  { primary := item.1
    members := [⟨item.1, item.2.1⟩]
    totalCount := item.2.1
    embedding := item.2.2 }

/-- clusterIntents: start with one cluster per intent and greedily
merge until no pair of centroids is cosine-similar at or above the
threshold. -/
def clusterIntents (intents : List (String × ℚ × List ℚ)) (τ : ℚ) : List Cluster :=
  let clusters := intents.map initCluster
  loopFuel τ clusters.length clusters

/-- Specification-side selection of a primary: the earliest member in
list order whose count is maximal ("the member with the highest
individual count, ties broken in favor of the earlier member"). -/
def firstMaxMember : List Member → Option Member
  | [] => none
  | x :: xs =>
    match firstMaxMember xs with
    | none => some x
    | some y => if y.count ≤ x.count then some x else some y

/-! ## Lemmas about substring containment -/

lemma startsWithPat_append (p q : List Char) :
    ∀ l, startsWithPat l (p ++ q) = true → startsWithPat l p = true := by
  induction p with
  | nil => intro l _; simp [startsWithPat]
  | cons a ps ih =>
    intro l h
    cases l with
    | nil => simp [startsWithPat] at h
    | cons b ls =>
      simp only [List.cons_append, startsWithPat, Bool.and_eq_true] at h ⊢
      exact ⟨h.1, ih ls h.2⟩

lemma hasSub_append (p q : List Char) :
    ∀ l, hasSub l (p ++ q) = true → hasSub l p = true := by
  intro l
  induction l with
  | nil =>
    intro h
    unfold hasSub at h ⊢
    by_cases hs : startsWithPat [] (p ++ q) = true
    · simp [startsWithPat_append p q _ hs]
    · simp [hs] at h
  | cons b ls ih =>
    intro h
    unfold hasSub at h ⊢
    by_cases hs : startsWithPat (b :: ls) (p ++ q) = true
    · simp [startsWithPat_append p q _ hs]
    · simp only [hs, if_false] at h
      by_cases hp : startsWithPat (b :: ls) p = true
      · simp [hp]
      · simp [hp, ih h]

/-- C6: for every input string, after lower-casing, trimming and
collapsing separators, the success-category normalizer returns
Partially Successful whenever the string contains "partial" or
"partially" (even alongside success/failure keywords); otherwise
Successful if it contains "success", "pass", "ok" or "resolved";
otherwise Unsuccessful if it contains "fail" or "unsuccess"; otherwise
the original string unchanged. -/
theorem c6_success_normalizer_rules (val : String) :
    normalizeSuccessCategory val = specNormalizeSuccessCategory val := by
  unfold normalizeSuccessCategory specNormalizeSuccessCategory
  set c := collapseSeps (lowerList (jsTrimList val.data)) with hc
  have h2 : (hasSub c "success".data || hasSub c "passed".data || hasSub c "pass".data ||
      hasSub c "ok".data || hasSub c "resolved".data) =
      (hasSub c "success".data || hasSub c "pass".data ||
      hasSub c "ok".data || hasSub c "resolved".data) := by
    cases hpd : hasSub c "passed".data with
    | false => simp [hpd]
    | true =>
      have hsplit : "passed".data = "pass".data ++ "ed".data := rfl
      have hp : hasSub c "pass".data = true := by
        exact hasSub_append "pass".data "ed".data c (hsplit ▸ hpd)
      simp [hpd, hp]
  simp only [h2]

/-! ## C9: the Vector Dimension Adapter -/

/-- C9: the adapter returns the vector unchanged when the dimension is
unknown or non-positive and at its own length; for a positive target
dimension the result has exactly that length, is the prefix when the
vector is longer, and is the vector padded with trailing zeros when it
is shorter. -/
theorem c9_fit_vector_dimension (v : List ℚ) (d : ℤ) :
    fitVectorDimension v none = v ∧
    (d ≤ 0 → fitVectorDimension v (some d) = v) ∧
    (0 < d →
      ((fitVectorDimension v (some d)).length : ℤ) = d ∧
      (d ≤ (v.length : ℤ) → fitVectorDimension v (some d) = v.take d.toNat) ∧
      ((v.length : ℤ) < d →
        fitVectorDimension v (some d) = v ++ List.replicate (d.toNat - v.length) 0)) ∧
    fitVectorDimension v (some (v.length : ℤ)) = v := by
  refine ⟨rfl, ?_, ?_, ?_⟩
  · intro h
    simp [fitVectorDimension, if_pos h]
  · intro h
    have hd0 : ¬ d ≤ 0 := by omega
    refine ⟨?_, ?_, ?_⟩
    · by_cases he : (v.length : ℤ) = d
      · simp [fitVectorDimension, hd0, he]
      · by_cases hg : (v.length : ℤ) > d
        · simp only [fitVectorDimension, if_neg hd0, if_neg he, if_pos hg]
          simp only [List.length_take]
          omega
        · simp only [fitVectorDimension, if_neg hd0, if_neg he, if_neg hg]
          simp only [List.length_append, List.length_replicate]
          omega
    · intro hge
      by_cases he : (v.length : ℤ) = d
      · have : d.toNat = v.length := by omega
        simp [fitVectorDimension, hd0, he, this]
      · have hg : (v.length : ℤ) > d := by omega
        simp [fitVectorDimension, hd0, he, hg]
    · intro hlt
      have he : ¬ (v.length : ℤ) = d := by omega
      have hg : ¬ (v.length : ℤ) > d := by omega
      simp [fitVectorDimension, hd0, he, hg]
  · by_cases h0 : v.length = 0
    · simp [fitVectorDimension, h0]
    · have : ¬ ((v.length : ℤ) ≤ 0) := by omega
      simp [fitVectorDimension, this]

/-- Witness for c9 at concrete inputs: truncation of [1,2,3] to 2 and
padding of [1,2] to 4. -/
theorem c9_witness :
    fitVectorDimension [1, 2, 3] (some 2) = [1, 2] ∧
    fitVectorDimension [1, 2] (some 4) = [1, 2, 0, 0] := by
  constructor
  · have h := (c9_fit_vector_dimension [1, 2, 3] 2).2.2.1 (by decide)
    rw [h.2.1 (by decide)]
    rfl
  · have h := (c9_fit_vector_dimension [1, 2] 4).2.2.1 (by decide)
    rw [h.2.2 (by decide)]
    rfl

/-! ## C7: the product coercion of normalizeFinal -/

lemma clamp01_nonneg (n : ℚ) : 0 ≤ clamp01 n := le_max_left 0 _

lemma clamp01_le_one (n : ℚ) : clamp01 n ≤ 1 :=
  max_le (by norm_num) (min_le_left 1 n)

/-- The product step as it actually behaves (the amended claim): id is
String(p.id) with no fallback, so an absent id stringifies to
"undefined"; name is String(p.name) falling back to the id; score is
clamped to [0,1]; an entry is dropped only when its stringified id or
name is empty — an entry missing both id and name is kept with id and
name "undefined". -/
def specNormalizeProducts (ps : List RawProduct) : List NProduct :=
  ps.filterMap (fun p =>
    let i := jsStr p.id
    let n := jsStr (p.name.or p.id)
    if i != "" && n != "" then
      some ⟨i, n, clamp01 (p.score.getD 0),
        p.brand.bind (fun b => if b == "" then none else some b),
        p.category.bind (fun c => if c == "" then none else some c)⟩
    else none)

/-- Counterexample to C7: an entry missing both id and name is not
dropped — it is kept with id and name "undefined" — and when only the
name is present the id does not fall back to it. -/
theorem c7_counterexample :
    normalizeProducts [⟨none, none, none, none, none⟩] =
      [⟨"undefined", "undefined", 0, none, none⟩] ∧
    normalizeProducts [⟨none, none, none, none, none⟩] ≠ [] ∧
    normalizeProducts [⟨none, some "Widget", some (1/2), none, none⟩] =
      [⟨"undefined", "Widget", 1/2, none, none⟩] := by
  refine ⟨?_, ?_, ?_⟩ <;> with_unfolding_all decide

/-- C7 as amended: the normalizer's product step equals the corrected
description specNormalizeProducts, and every coerced score lies in
[0,1]. -/
theorem c7_amended_product_coercion (ps : List RawProduct) (p : RawProduct) :
    normalizeProducts ps = specNormalizeProducts ps ∧
    0 ≤ (coerceProduct p).score ∧ (coerceProduct p).score ≤ 1 := by
  refine ⟨?_, clamp01_nonneg _, clamp01_le_one _⟩
  induction ps with
  | nil => rfl
  | cons q qs ih =>
    simp only [normalizeProducts, specNormalizeProducts, List.map_cons, List.filter_cons,
      List.filterMap_cons] at ih ⊢
    by_cases hk : ((coerceProduct q).id != "" && (coerceProduct q).name != "") = true
    · rw [if_pos hk]
      have : (jsStr q.id != "" && jsStr (q.name.or q.id) != "") = true := hk
      simp only [this, ih]
      rfl
    · rw [if_neg hk]
      have : (jsStr q.id != "" && jsStr (q.name.or q.id) != "") = false := by
        simpa using hk
      simp only [this, ih]
      rfl

/-! ## The cross-field invariant through the validator -/

/-- The CallType/SuccessCategory invariant as a proposition on a
validated record. -/
def invariantOK (c : Candidate) : Prop :=
  (c.callType = "Automated" → c.successCategory ≠ "Partially Successful") ∧
  (c.callType = "Escalated" → c.successCategory ≠ "Successful")

lemma invariantB_true_iff (r : RawCandidate) :
    invariantB r = true ↔
      ((r.callType = "Automated" → r.successCategory ≠ "Partially Successful") ∧
       (r.callType = "Escalated" → r.successCategory ≠ "Successful")) := by
  unfold invariantB
  constructor
  · intro h
    simp only [Bool.and_eq_true, Bool.not_eq_true', Bool.and_eq_false_iff,
      beq_eq_false_iff_ne, ne_eq] at h
    constructor
    · intro hct hsc
      rcases h.1 with h1 | h1 <;> [exact h1 (by simp [hct]); exact h1 (by simp [hsc])]
    · intro hct hsc
      rcases h.2 with h1 | h1 <;> [exact h1 (by simp [hct]); exact h1 (by simp [hsc])]
  · intro h
    simp only [Bool.and_eq_true, Bool.not_eq_true', Bool.and_eq_false_iff,
      beq_eq_false_iff_ne, ne_eq]
    constructor
    · by_cases hct : r.callType = "Automated"
      · exact Or.inr (by simpa using h.1 hct)
      · exact Or.inl (by simpa using hct)
    · by_cases hct : r.callType = "Escalated"
      · exact Or.inr (by simpa using h.2 hct)
      · exact Or.inl (by simpa using hct)

lemma finalSafeParse_some_facts (r : RawCandidate) (c : Candidate)
    (h : finalSafeParse r = some c) :
    c.callType = r.callType ∧ c.successCategory = r.successCategory ∧
    c.intent = r.intent ∧ c.confidence = r.confidence ∧ c.summary = r.summary ∧
    c.keyPoints = r.keyPoints ∧ c.pineconeRecordId = r.pineconeRecordId ∧
    fieldChecks r = true ∧ invariantB r = true := by
  unfold finalSafeParse at h
  split at h
  · rename_i ps ks ds hp hk hd
    split at h
    · rename_i hcond
      cases h
      rw [Bool.and_eq_true] at hcond
      exact ⟨rfl, rfl, rfl, rfl, rfl, rfl, rfl, hcond.1, hcond.2⟩
    · simp at h
  · simp at h

lemma finalSafeParse_invariant (r : RawCandidate) (c : Candidate)
    (h : finalSafeParse r = some c) : invariantOK c := by
  obtain ⟨hct, hsc, -, -, -, -, -, -, hinv⟩ := finalSafeParse_some_facts r c h
  unfold invariantOK
  rw [hct, hsc]
  exact (invariantB_true_iff r).mp hinv

lemma finalSafeParse_reject (r : RawCandidate) (h : invariantB r = false) :
    finalSafeParse r = none := by
  unfold finalSafeParse
  split
  · rw [if_neg]
    simp [h]
  · rfl

lemma finalizeCandidate_ok (rc : RawCandidate) (c : Candidate)
    (h : finalizeCandidate rc = .ok c) :
    normalizeFinal rc = some c ∨ finalSafeParse rc = some c := by
  unfold finalizeCandidate at h
  split at h
  · rename_i heq
    cases h
    exact Or.inl heq
  · split at h
    · rename_i heq
      cases h
      exact Or.inr heq
    · simp at h

lemma analyze_ok_invariant (o : Oracle) (c : Candidate)
    (h : analyze o = .ok c) : invariantOK c := by
  simp only [analyze] at h
  split at h
  · simp at h
  · split at h
    · simp at h
    · split at h
      · simp at h
      · split at h
        · simp at h
        · rcases finalizeCandidate_ok _ _ h with hn | hp
          · unfold normalizeFinal at hn
            exact finalSafeParse_invariant _ _ hn
          · exact finalSafeParse_invariant _ _ hp

/-- C1: FinalSchema.safeParse accepts only records whose
(callType, successCategory) pair satisfies both invariant implications,
rejects any otherwise-well-formed candidate violating either one, and
every record returned by the analyze operation (through normalization
or through its fallback validation path) satisfies both implications. -/
theorem c1_final_validator_invariant_closure (r : RawCandidate) (c : Candidate) (o : Oracle) :
    (finalSafeParse r = some c → invariantOK c) ∧
    (fieldChecks r = true → invariantB r = false → finalSafeParse r = none) ∧
    (analyze o = .ok c → invariantOK c) :=
  ⟨finalSafeParse_invariant r c,
   fun _ hv => finalSafeParse_reject r hv,
   analyze_ok_invariant o c⟩

/-! ## Concrete fixtures used by the witnesses and counterexamples -/

/-- A canonical, valid raw candidate. -/
def rEx : RawCandidate :=
  ⟨"Automated", "Successful", "order status", "orders", 1/2, "s", ["k"], [],
    none, [], [], [], none⟩

/-- The validated record for rEx. -/
def cEx : Candidate :=
  ⟨"Automated", "Successful", "order status", "orders", 1/2, "s", ["k"], [],
    none, [], [], [], none⟩

/-- rEx with the invariant-violating pair (Automated, Partially
Successful); all per-field checks still pass. -/
def rBad : RawCandidate :=
  ⟨"Automated", "Partially Successful", "order status", "orders", 1/2, "s", ["k"], [],
    none, [], [], [], none⟩

/-- Classification-pass output used in the oracles. -/
def s1Ex : Step1Out := ⟨"Automated", "Successful", 1/2, "r"⟩

/-- Intent-pass output used in the oracles. -/
def s2Ex : Step2Out := ⟨"order status", "orders", 1/2, "r"⟩

/-- Summary-pass output used in the oracles. -/
def s3Ex : Step3Out := ⟨"s", ["k"], []⟩

/-- Product-pass output used in the oracles. -/
def s4Ex : Step4Out := ⟨[]⟩

/-- A request whose passes all succeed on the first attempt, whose
search block throws, and whose storage upsert throws. -/
def oEx : Oracle :=
  ⟨fun _ => .ok s1Ex, fun _ => .ok s2Ex, fun _ => .ok s3Ex, fun _ => .ok s4Ex,
    none, .error "pinecone down"⟩

/-- Witness for c1: the canonical candidate is accepted and satisfies
the invariant, and its invariant-violating variant is rejected by the
validator. -/
theorem c1_witness : invariantOK cEx ∧ finalSafeParse rBad = none :=
  ⟨(c1_final_validator_invariant_closure rEx cEx oEx).1 (by with_unfolding_all rfl),
   (c1_final_validator_invariant_closure rBad cEx oEx).2.1
     (by with_unfolding_all rfl) (by with_unfolding_all rfl)⟩

/-! ## C8: normalizeFinal both throws and rejects

The typed RawCandidate model above covers candidates whose array
entries are objects.  The source's normalizeFinal additionally THROWS a
TypeError when a products, keywords or relatedDocs array contains a
null or undefined entry: the coercion callbacks read p.id, k.term and
d.id on the entry, and property access on null/undefined throws.  The
loose model below represents such an entry as `none`, so that throw
path is visible. -/

/-- The JS Array.map over a list of possibly-nullish entries: produce
the list of object entries, or fail at the first null/undefined entry
(whose property access throws). -/
def seqEntries {α : Type} : List (Option α) → Option (List α)
  | [] => some []
  | none :: _ => none
  | some x :: t => (seqEntries t).map (fun l => x :: l)

/-- A candidate whose array entries may be null/undefined (`none`),
the shapes on which the source's normalizeFinal throws. -/
structure RawCandidateLoose where
  callType : String
  successCategory : String
  intent : String
  intentCategory : String
  confidence : ℚ
  summary : String
  keyPoints : List String
  actionItems : List String
  escalationReason : Option String
  products : List (Option RawProduct)
  keywords : List (Option RawKeyword)
  relatedDocs : List (Option RawDoc)
  pineconeRecordId : Option String
deriving DecidableEq, Repr

/-- View a typed candidate as a loose one (every array entry is an
object). -/
def ofTyped (rt : RawCandidate) : RawCandidateLoose :=
  ⟨rt.callType, rt.successCategory, rt.intent, rt.intentCategory, rt.confidence,
   rt.summary, rt.keyPoints, rt.actionItems, rt.escalationReason,
   rt.products.map some, rt.keywords.map some, rt.relatedDocs.map some,
   rt.pineconeRecordId⟩

/-- Strip a null-free loose candidate back to the typed model (arrays
with a null entry are replaced by [], a value it never takes on the
null-free domain where this function is used). -/
def stripTyped (r : RawCandidateLoose) : RawCandidate :=
  ⟨r.callType, r.successCategory, r.intent, r.intentCategory, r.confidence,
   r.summary, r.keyPoints, r.actionItems, r.escalationReason,
   (seqEntries r.products).getD [], (seqEntries r.keywords).getD [],
   (seqEntries r.relatedDocs).getD [], r.pineconeRecordId⟩

/-- normalizeFinal over loose candidates: a null/undefined entry in any
of the three arrays makes the corresponding map callback throw a
TypeError (Except.error), which the source does not catch; on all-object
arrays the function never throws and behaves as the typed normalizeFinal
(the scalar repair steps before the array maps cannot throw). -/
def normalizeFinalLoose (r : RawCandidateLoose) : Except String (Option Candidate) :=
  match seqEntries r.products, seqEntries r.keywords, seqEntries r.relatedDocs with
  | some ps, some ks, some ds =>
    .ok (normalizeFinal ⟨r.callType, r.successCategory, r.intent, r.intentCategory,
      r.confidence, r.summary, r.keyPoints, r.actionItems, r.escalationReason,
      ps, ks, ds, r.pineconeRecordId⟩)
  | _, _, _ => .error "TypeError"

lemma seqEntries_eq_none {α : Type} :
    ∀ l : List (Option α), seqEntries l = none ↔ none ∈ l := by
  intro l
  induction l with
  | nil => simp [seqEntries]
  | cons x t ih =>
    cases x with
    | none => simp [seqEntries]
    | some a =>
      simp only [seqEntries, List.mem_cons]
      rw [← ih]
      cases seqEntries t <;> simp

lemma seqEntries_map_some {α : Type} :
    ∀ l : List α, seqEntries (l.map some) = some l := by
  intro l
  induction l with
  | nil => rfl
  | cons a t ih => simp [seqEntries, ih]

lemma seqEntries_some_eq {α : Type} :
    ∀ (l : List (Option α)) (l2 : List α),
      seqEntries l = some l2 → l = l2.map some := by
  intro l
  induction l with
  | nil =>
    intro l2 h
    cases h
    rfl
  | cons x t ih =>
    intro l2 h
    cases x with
    | none => exact Option.noConfusion h
    | some a =>
      rw [seqEntries] at h
      cases ht : seqEntries t with
      | none => rw [ht] at h; exact Option.noConfusion h
      | some t2 =>
        rw [ht] at h
        simp only [Option.map] at h
        cases h
        simp [ih t2 ht]

/-- A loose candidate with a null products entry (valid JSON input such
as products: [null]). -/
def rNullEntry : RawCandidateLoose :=
  ⟨"Automated", "Successful", "order status", "orders", 1/2, "s", ["k"], [],
    none, [none], [], [], none⟩

/-- Counterexample to C8: normalizeFinal is neither throw-free nor
reject-free.  It returns no record at all for a candidate whose
(callType, successCategory) pair violates the invariant even though
every other field is canonical, and it throws a TypeError on a
candidate whose products array contains a null entry. -/
theorem c8_counterexample :
    normalizeFinal rBad = none ∧
    normalizeFinalLoose rNullEntry = .error "TypeError" := by
  constructor
  · with_unfolding_all rfl
  · rfl

lemma fieldChecks_props (r : RawCandidate) (h : fieldChecks r = true) :
    r.intent ≠ "" ∧ 0 ≤ r.confidence ∧ r.confidence ≤ 1 ∧ r.summary ≠ "" ∧
    r.keyPoints ≠ [] := by
  unfold fieldChecks at h
  simp only [Bool.and_eq_true, bne_iff_ne, ne_eq, decide_eq_true_eq,
    Bool.not_eq_true', List.isEmpty_eq_false] at h
  refine ⟨?_, ?_, ?_, ?_, ?_⟩ <;> tauto

/-- C8 as amended: normalizeFinal throws a TypeError exactly when one
of the three entry arrays contains a null/undefined entry; every
null-free loose candidate is a typed candidate, on which the function
never throws and agrees with the typed model; and whenever it does
produce a record that record is fully canonical — nonempty intent,
summary and keyPoints, confidence in [0,1] and the cross-field
invariant — while it returns no record (without throwing) when the
repaired candidate fails final validation. -/
theorem c8_amended_normalizer (r : RawCandidateLoose) (rt : RawCandidate)
    (c : Candidate) :
    ((none ∈ r.products ∨ none ∈ r.keywords ∨ none ∈ r.relatedDocs) →
      normalizeFinalLoose r = .error "TypeError") ∧
    (¬ none ∈ r.products → ¬ none ∈ r.keywords → ¬ none ∈ r.relatedDocs →
      r = ofTyped (stripTyped r)) ∧
    normalizeFinalLoose (ofTyped rt) = .ok (normalizeFinal rt) ∧
    (normalizeFinal rt = some c →
      c.intent ≠ "" ∧ c.summary ≠ "" ∧ c.keyPoints ≠ [] ∧
      0 ≤ c.confidence ∧ c.confidence ≤ 1 ∧ invariantOK c) := by
  refine ⟨?_, ?_, ?_, ?_⟩
  · intro h
    rcases h with h | h | h
    · rw [normalizeFinalLoose, (seqEntries_eq_none _).mpr h]
    · cases hp : seqEntries r.products with
      | none => rw [normalizeFinalLoose, hp]
      | some ps => rw [normalizeFinalLoose, hp, (seqEntries_eq_none _).mpr h]
    · cases hp : seqEntries r.products with
      | none => rw [normalizeFinalLoose, hp]
      | some ps =>
        cases hk : seqEntries r.keywords with
        | none => rw [normalizeFinalLoose, hp, hk]
        | some ks => rw [normalizeFinalLoose, hp, hk, (seqEntries_eq_none _).mpr h]
  · intro h1 h2 h3
    obtain ⟨f1, f2, f3, f4, f5, f6, f7, f8, f9, fps, fks, fds, f13⟩ := r
    simp only at h1 h2 h3
    cases hp : seqEntries fps with
    | none => exact absurd ((seqEntries_eq_none fps).mp hp) h1
    | some ps =>
      cases hk : seqEntries fks with
      | none => exact absurd ((seqEntries_eq_none fks).mp hk) h2
      | some ks =>
        cases hd : seqEntries fds with
        | none => exact absurd ((seqEntries_eq_none fds).mp hd) h3
        | some ds =>
          simp only [stripTyped, ofTyped, hp, hk, hd, Option.getD]
          rw [RawCandidateLoose.mk.injEq]
          refine ⟨rfl, rfl, rfl, rfl, rfl, rfl, rfl, rfl, rfl, ?_, ?_, ?_, rfl⟩
          · exact seqEntries_some_eq fps ps hp
          · exact seqEntries_some_eq fks ks hk
          · exact seqEntries_some_eq fds ds hd
  · rw [normalizeFinalLoose]
    rw [show seqEntries (ofTyped rt).products = some rt.products from
        seqEntries_map_some rt.products,
      show seqEntries (ofTyped rt).keywords = some rt.keywords from
        seqEntries_map_some rt.keywords,
      show seqEntries (ofTyped rt).relatedDocs = some rt.relatedDocs from
        seqEntries_map_some rt.relatedDocs]
    rfl
  · intro h
    have hinv := finalSafeParse_invariant _ _ h
    obtain ⟨-, -, hint, hconf, hsum, hkp, -, hfc, -⟩ := finalSafeParse_some_facts _ _ h
    obtain ⟨h1, h2, h3, h4, h5⟩ := fieldChecks_props _ hfc
    exact ⟨hint ▸ h1, hsum ▸ h4, hkp ▸ h5, hconf ▸ h2, hconf ▸ h3, hinv⟩

/-- Witness for c8_amended_normalizer: the null-entry candidate throws,
the canonical typed candidate neither throws nor is rejected and yields
the fully canonical record, and the null-free loose view of rEx strips
back to rEx. -/
theorem c8_witness :
    normalizeFinalLoose rNullEntry = .error "TypeError" ∧
    normalizeFinalLoose (ofTyped rEx) = .ok (normalizeFinal rEx) ∧
    ofTyped rEx = ofTyped (stripTyped (ofTyped rEx)) ∧
    cEx.intent ≠ "" ∧ cEx.summary ≠ "" ∧ cEx.keyPoints ≠ [] ∧
    0 ≤ cEx.confidence ∧ cEx.confidence ≤ 1 ∧ invariantOK cEx := by
  refine ⟨(c8_amended_normalizer rNullEntry rEx cEx).1
      (Or.inl (by simp [rNullEntry])),
    (c8_amended_normalizer rNullEntry rEx cEx).2.2.1,
    (c8_amended_normalizer (ofTyped rEx) rEx cEx).2.1
      (by simp [ofTyped, rEx]) (by simp [ofTyped, rEx]) (by simp [ofTyped, rEx]), ?_⟩
  have h := (c8_amended_normalizer rNullEntry rEx cEx).2.2.2
    (by with_unfolding_all rfl)
  exact h

/-! ## C2: only the classification pass is retried -/

/-- A request whose intent pass fails its first attempt but would
succeed on a retry. -/
def oC2 : Oracle :=
  ⟨fun _ => .ok s1Ex,
   fun n => if n == 0 then .error "schema fail" else .ok s2Ex,
   fun _ => .ok s3Ex, fun _ => .ok s4Ex, none, .error "pinecone down"⟩

/-- A request whose classification pass fails its first attempt and
succeeds on the retry. -/
def oC2b : Oracle :=
  ⟨fun n => if n == 0 then .error "bad classification" else .ok s1Ex,
   fun _ => .ok s2Ex, fun _ => .ok s3Ex, fun _ => .ok s4Ex,
   none, .error "pinecone down"⟩

/-- Counterexample to C2: the intent pass of oC2 fails once and its
retry attempt would succeed, yet analyze propagates the first failure —
no pass other than the classification pass is retried. -/
theorem c2_counterexample :
    oC2.step2 0 = .error "schema fail" ∧ oC2.step2 1 = .ok s2Ex ∧
    analyze oC2 = .error "schema fail" :=
  ⟨rfl, rfl, rfl⟩

/-- C2 as amended: the classification pass alone is governed by the
two-attempt policy — a first-attempt success is kept, a first-attempt
failure hands the outcome to the single stricter retry — while a
first-attempt failure of the intent, summary or product pass
propagates immediately as the request's error. -/
theorem c2_amended_retry_only_classification (o : Oracle) (v : Step1Out)
    (w : Step2Out) (u : Step3Out) (e e2 : String) :
    (o.step1 0 = .ok v → runStep1 o.step1 = .ok v) ∧
    (o.step1 0 = .error e → runStep1 o.step1 = o.step1 1) ∧
    (o.step1 0 = .error e → o.step1 1 = .error e2 → analyze o = .error e2) ∧
    (runStep1 o.step1 = .ok v → o.step2 0 = .error e → analyze o = .error e) ∧
    (runStep1 o.step1 = .ok v → o.step2 0 = .ok w → o.step3 0 = .error e →
      analyze o = .error e) ∧
    (runStep1 o.step1 = .ok v → o.step2 0 = .ok w → o.step3 0 = .ok u →
      o.step4 0 = .error e → analyze o = .error e) := by
  refine ⟨?_, ?_, ?_, ?_, ?_, ?_⟩
  · intro h
    unfold runStep1
    rw [h]
  · intro h
    unfold runStep1
    rw [h]
  · intro h h1
    have hr : runStep1 o.step1 = .error e2 := by
      unfold runStep1
      rw [h, h1]
    simp only [analyze, hr]
  · intro h h2
    simp only [analyze, h, h2]
  · intro h h2 h3
    simp only [analyze, h, h2, h3]
  · intro h h2 h3 h4
    simp only [analyze, h, h2, h3, h4]

/-- Witness for the amended c2: the classification pass of oC2b is
retried and analyze of oC2 stops at the intent pass's first failure. -/
theorem c2_witness :
    runStep1 oC2b.step1 = .ok s1Ex ∧ analyze oC2 = .error "schema fail" := by
  constructor
  · have h := (c2_amended_retry_only_classification oC2b s1Ex s2Ex s3Ex
      "bad classification" "x").2.1 rfl
    rw [h]
    rfl
  · exact (c2_amended_retry_only_classification oC2 s1Ex s2Ex s3Ex
      "schema fail" "x").2.2.2.1 rfl rfl

/-! ## C3: storage failure is non-fatal and only clears the record id -/

lemma normalizeSteps_pid (rc : RawCandidate) (x : Option String) :
    normalizeSteps { rc with pineconeRecordId := x } =
    { normalizeSteps rc with pineconeRecordId := x } := rfl

lemma finalSafeParse_pid_isSome (rc : RawCandidate) (x y : Option String) :
    (finalSafeParse { rc with pineconeRecordId := x }).isSome =
    (finalSafeParse { rc with pineconeRecordId := y }).isSome := by
  unfold finalSafeParse
  cases hp : rc.products.mapM parseProduct <;>
    cases hk : rc.keywords.mapM parseKeyword <;>
      cases hd : rc.relatedDocs.mapM parseDoc <;>
        simp only [hp, hk, hd]
  rw [show (fieldChecks { rc with pineconeRecordId := x } &&
      invariantB { rc with pineconeRecordId := x }) =
      (fieldChecks { rc with pineconeRecordId := y } &&
      invariantB { rc with pineconeRecordId := y }) from rfl]
  split <;> rfl

lemma finalize_isOk_or (rc : RawCandidate) :
    (finalizeCandidate rc).isOk =
      ((normalizeFinal rc).isSome || (finalSafeParse rc).isSome) := by
  unfold finalizeCandidate
  cases hn : normalizeFinal rc
  · cases hf : finalSafeParse rc
    · rfl
    · rfl
  · rfl

lemma finalizeCandidate_pid_isOk (rc : RawCandidate) (x y : Option String) :
    (finalizeCandidate { rc with pineconeRecordId := x }).isOk =
    (finalizeCandidate { rc with pineconeRecordId := y }).isOk := by
  rw [finalize_isOk_or, finalize_isOk_or]
  unfold normalizeFinal
  rw [normalizeSteps_pid rc x, normalizeSteps_pid rc y,
    finalSafeParse_pid_isSome (normalizeSteps rc) x y,
    finalSafeParse_pid_isSome rc x y]

lemma finalizeCandidate_ok_pid (rc : RawCandidate) (c : Candidate)
    (h : finalizeCandidate rc = .ok c) :
    c.pineconeRecordId = rc.pineconeRecordId := by
  rcases finalizeCandidate_ok _ _ h with hn | hp
  · obtain ⟨-, -, -, -, -, -, hpid, -, -⟩ := finalSafeParse_some_facts _ _ hn
    exact hpid
  · obtain ⟨-, -, -, -, -, -, hpid, -, -⟩ := finalSafeParse_some_facts _ _ hp
    exact hpid

lemma finalize_mkComposed_pid_isOk (s1 : Step1Out) (s2 : Step2Out) (s3 : Step3Out)
    (pr : List NProduct) (k : List Keyword) (d : List RelatedDoc)
    (x y : Option String) :
    (finalizeCandidate (mkComposed s1 s2 s3 pr k d x)).isOk =
    (finalizeCandidate (mkComposed s1 s2 s3 pr k d y)).isOk := by
  have h1 : mkComposed s1 s2 s3 pr k d x =
      { mkComposed s1 s2 s3 pr k d none with pineconeRecordId := x } := rfl
  have h2 : mkComposed s1 s2 s3 pr k d y =
      { mkComposed s1 s2 s3 pr k d none with pineconeRecordId := y } := rfl
  rw [h1, h2, finalizeCandidate_pid_isOk]

/-- C3: when the storage block throws, any record returned by analyze
has no pineconeRecordId; and for two requests identical except for the
storage outcome, analyze succeeds on one iff it succeeds on the other —
a storage failure is never surfaced as a request failure. -/
theorem c3_storage_failure_nonfatal (o o2 : Oracle) (e : String) :
    o.storage = .error e →
    (∀ c : Candidate, analyze o = .ok c → c.pineconeRecordId = none) ∧
    (o2.step1 = o.step1 → o2.step2 = o.step2 → o2.step3 = o.step3 →
      o2.step4 = o.step4 → o2.search = o.search →
      (analyze o2).isOk = (analyze o).isOk) := by
  intro hst
  constructor
  · intro c h
    simp only [analyze, hst] at h
    split at h
    · simp at h
    · split at h
      · simp at h
      · split at h
        · simp at h
        · split at h
          · simp at h
          · exact finalizeCandidate_ok_pid _ _ h
  · intro h1 h2 h3 h4 h5
    obtain ⟨f1, f2, f3, f4, se, st⟩ := o
    obtain ⟨g1, g2, g3, g4, se2, st2⟩ := o2
    simp only at h1 h2 h3 h4 h5 hst
    subst h1 h2 h3 h4 h5 hst
    simp only [analyze]
    cases hr : runStep1 g1
    · rfl
    · cases hb : g2 0
      · rfl
      · cases hc : g3 0
        · rfl
        · cases hd : g4 0
          · rfl
          · exact finalize_mkComposed_pid_isOk _ _ _ _ _ _ _ _

/-- Witness for c3: the oracle oEx has failing storage, all its passes
succeed, and analyze returns the record with pineconeRecordId absent;
replacing the storage outcome by a success keeps the request
successful. -/
theorem c3_witness :
    analyze oEx = .ok cEx ∧ cEx.pineconeRecordId = none ∧
    (analyze { oEx with storage := .ok "id1" }).isOk = (analyze oEx).isOk := by
  refine ⟨by with_unfolding_all rfl, ?_, ?_⟩
  · exact (c3_storage_failure_nonfatal oEx oEx "pinecone down" rfl).1 cEx
      (by with_unfolding_all rfl)
  · exact (c3_storage_failure_nonfatal oEx { oEx with storage := .ok "id1" }
      "pinecone down" rfl).2 rfl rfl rfl rfl rfl

/-! ## C4: the merge step -/

lemma zipWith_congr_fun {α β γ : Type} (f g : α → β → γ) (h : ∀ a b, f a b = g a b) :
    ∀ (l1 : List α) (l2 : List β), List.zipWith f l1 l2 = List.zipWith g l1 l2 := by
  intro l1
  induction l1 with
  | nil => intro l2; rfl
  | cons a t ih =>
    intro l2
    cases l2 with
    | nil => rfl
    | cons b t2 => simp [List.zipWith, h a b, ih t2]

lemma insertDesc_head (x : Member) (s : List Member) :
    (insertDesc x s).head? = some (match s.head? with
      | none => x
      | some y => if y.count ≤ x.count then x else y) := by
  cases s with
  | nil => rfl
  | cons y ys =>
    by_cases h : y.count ≤ x.count <;> simp [insertDesc, h]

lemma sortDesc_head (l : List Member) : (sortDesc l).head? = firstMaxMember l := by
  induction l with
  | nil => rfl
  | cons x xs ih =>
    rw [sortDesc, insertDesc_head, ih, firstMaxMember]
    cases hfm : firstMaxMember xs with
    | none => rfl
    | some y => by_cases h : y.count ≤ x.count <;> simp [h]

lemma firstMaxMember_eq_none (l : List Member) :
    firstMaxMember l = none ↔ l = [] := by
  cases l with
  | nil => simp [firstMaxMember]
  | cons x xs =>
    simp only [firstMaxMember]
    cases hfm : firstMaxMember xs with
    | none => simp
    | some y => by_cases h : y.count ≤ x.count <;> simp [h]

lemma firstMaxMember_max (l : List Member) (m : Member)
    (h : firstMaxMember l = some m) : ∀ y ∈ l, y.count ≤ m.count := by
  induction l generalizing m with
  | nil => simp [firstMaxMember] at h
  | cons x xs ih =>
    rw [firstMaxMember] at h
    cases hfm : firstMaxMember xs with
    | none =>
      rw [hfm] at h
      cases h
      have hxs : xs = [] := (firstMaxMember_eq_none xs).mp hfm
      subst hxs
      simp
    | some y =>
      rw [hfm] at h
      dsimp only at h
      by_cases hc : y.count ≤ x.count
      · rw [if_pos hc] at h
        cases h
        intro z hz
        rcases List.mem_cons.mp hz with rfl | hz2
        · exact le_refl _
        · exact le_trans (ih y hfm z hz2) hc
      · rw [if_neg hc] at h
        cases h
        intro z hz
        rcases List.mem_cons.mp hz with rfl | hz2
        · exact le_of_lt (lt_of_not_le hc)
        · exact ih m hfm z hz2

lemma firstMaxMember_first (l : List Member) (m : Member)
    (h : firstMaxMember l = some m) :
    ∃ l1 l2, l = l1 ++ m :: l2 ∧ ∀ y ∈ l1, y.count < m.count := by
  induction l generalizing m with
  | nil => simp [firstMaxMember] at h
  | cons x xs ih =>
    rw [firstMaxMember] at h
    cases hfm : firstMaxMember xs with
    | none =>
      rw [hfm] at h
      cases h
      exact ⟨[], xs, rfl, by simp⟩
    | some y =>
      rw [hfm] at h
      dsimp only at h
      by_cases hc : y.count ≤ x.count
      · rw [if_pos hc] at h
        cases h
        exact ⟨[], xs, rfl, by simp⟩
      · rw [if_neg hc] at h
        cases h
        obtain ⟨l1, l2, heq, hlt⟩ := ih m hfm
        refine ⟨x :: l1, l2, by rw [heq]; rfl, ?_⟩
        intro z hz
        rcases List.mem_cons.mp hz with rfl | hz2
        · exact lt_of_not_le hc
        · exact hlt z hz2

lemma firstMaxMember_mem (l : List Member) (m : Member)
    (h : firstMaxMember l = some m) : m ∈ l := by
  obtain ⟨l1, l2, heq, -⟩ := firstMaxMember_first l m h
  rw [heq]
  simp

/-- C4: in every merge step, the absorbing cluster's new centroid is
the count-weighted average of the two prior centroids with each side
weighted by its pre-merge totalCount, and the new primary is the
member of the concatenated member list with the highest individual
count, earliest in the existing order on ties. -/
theorem c4_merge_centroid_and_primary (ci cj : Cluster) (m : Member)
    (hm : firstMaxMember (ci.members ++ cj.members) = some m) :
    (mergeInto ci cj).embedding = List.zipWith
      (fun x y => (x * ci.totalCount + y * cj.totalCount) /
        (ci.totalCount + cj.totalCount)) ci.embedding cj.embedding ∧
    (mergeInto ci cj).primary = m.intent ∧
    m ∈ ci.members ++ cj.members ∧
    (∀ y ∈ ci.members ++ cj.members, y.count ≤ m.count) ∧
    (∃ l1 l2, ci.members ++ cj.members = l1 ++ m :: l2 ∧
      ∀ y ∈ l1, y.count < m.count) := by
  refine ⟨?_, ?_, firstMaxMember_mem _ _ hm, firstMaxMember_max _ _ hm,
    firstMaxMember_first _ _ hm⟩
  · show List.zipWith _ ci.embedding cj.embedding = _
    apply zipWith_congr_fun
    intro a b
    rw [add_sub_cancel_right]
  · show (match sortDesc (ci.members ++ cj.members) with
      | m :: _ => m.intent
      | [] => ci.primary) = m.intent
    have hh := sortDesc_head (ci.members ++ cj.members)
    rw [hm] at hh
    cases hs : sortDesc (ci.members ++ cj.members) with
    | nil => rw [hs] at hh; simp at hh
    | cons a t =>
      rw [hs] at hh
      simp only [List.head?] at hh
      cases hh
      rfl

/-- The two singleton clusters of the witness merge. -/
def cExA : Cluster := ⟨"a", [⟨"a", 3⟩], 3, [1, 0]⟩

/-- Second witness cluster. -/
def cExB : Cluster := ⟨"b", [⟨"b", 4⟩], 4, [0, 1]⟩

/-- Witness for c4 at the two singleton clusters: the merged primary is
the higher-count member and the centroid is the count-weighted average
(3·e_a + 4·e_b)/7. -/
theorem c4_witness :
    (mergeInto cExA cExB).primary = "b" ∧
    (mergeInto cExA cExB).embedding = [3/7, 4/7] := by
  have h := c4_merge_centroid_and_primary cExA cExB ⟨"b", 4⟩
    (by with_unfolding_all rfl)
  refine ⟨h.2.1, ?_⟩
  rw [h.1]
  with_unfolding_all decide

/-! ## C10: termination of the merge loop -/

lemma scanInner_length (τ : ℚ) (c : Cluster) :
    ∀ (rest : List Cluster) (c2 : Cluster) (rest2 : List Cluster),
      scanInner τ c rest = some (c2, rest2) → rest2.length + 1 = rest.length := by
  intro rest
  induction rest with
  | nil => intro c2 rest2 h; exact Option.noConfusion h
  | cons d ds ih =>
    intro c2 rest2 h
    rw [scanInner] at h
    by_cases hs : simGE c.embedding d.embedding τ = true
    · rw [if_pos hs] at h
      cases h
      rfl
    · rw [if_neg hs] at h
      cases hr : scanInner τ c ds with
      | none => rw [hr] at h; simp at h
      | some r =>
        rw [hr] at h
        simp only [Option.map] at h
        cases h
        have := ih r.1 r.2 (by rw [hr])
        simp only [List.length_cons]
        omega

lemma scanFrom_length (τ : ℚ) :
    ∀ (cs cs2 : List Cluster), scanFrom τ cs = some cs2 →
      cs2.length + 1 = cs.length := by
  intro cs
  induction cs with
  | nil => intro cs2 h; exact Option.noConfusion h
  | cons c rest ih =>
    intro cs2 h
    rw [scanFrom] at h
    cases hi : scanInner τ c rest with
    | some r =>
      rw [hi] at h
      cases h
      have := scanInner_length τ c rest r.1 r.2 (by rw [hi])
      simp only [List.length_cons]
      omega
    | none =>
      rw [hi] at h
      cases hf : scanFrom τ rest with
      | none => rw [hf] at h; simp at h
      | some r =>
        rw [hf] at h
        simp only [Option.map] at h
        cases h
        have := ih r (by rw [hf])
        simp only [List.length_cons]
        omega

lemma scanFrom_singleton (τ : ℚ) (c : Cluster) : scanFrom τ [c] = none := rfl

lemma scanFrom_some_ne_nil (τ : ℚ) (cs cs2 : List Cluster)
    (h : scanFrom τ cs = some cs2) : cs2 ≠ [] := by
  intro hnil
  subst hnil
  have hl := scanFrom_length τ cs [] h
  simp at hl
  match cs, hl with
  | [c], _ => rw [scanFrom_singleton] at h; exact Option.noConfusion h

lemma loopFuel_fix (τ : ℚ) :
    ∀ (n : ℕ) (cs : List Cluster), cs.length ≤ n →
      scanFrom τ (loopFuel τ n cs) = none := by
  intro n
  induction n with
  | zero =>
    intro cs h
    have : cs = [] := List.length_eq_zero.mp (Nat.le_zero.mp h)
    subst this
    rfl
  | succ n ih =>
    intro cs h
    rw [loopFuel]
    cases hs : scanFrom τ cs with
    | none => exact hs
    | some cs2 =>
      have := scanFrom_length τ cs cs2 hs
      exact ih cs2 (by omega)

lemma loopFuel_length_le (τ : ℚ) :
    ∀ (n : ℕ) (cs : List Cluster), (loopFuel τ n cs).length ≤ cs.length := by
  intro n
  induction n with
  | zero => intro cs; exact le_refl _
  | succ n ih =>
    intro cs
    rw [loopFuel]
    cases hs : scanFrom τ cs with
    | none => exact le_refl _
    | some cs2 =>
      dsimp only
      have h1 := scanFrom_length τ cs cs2 hs
      have h2 := ih cs2
      omega

lemma loopFuel_pos (τ : ℚ) :
    ∀ (n : ℕ) (cs : List Cluster), cs ≠ [] → 1 ≤ (loopFuel τ n cs).length := by
  intro n
  induction n with
  | zero =>
    intro cs h
    rw [loopFuel]
    exact List.length_pos.mpr h
  | succ n ih =>
    intro cs h
    rw [loopFuel]
    cases hs : scanFrom τ cs with
    | none => exact List.length_pos.mpr h
    | some cs2 => exact ih cs2 (scanFrom_some_ne_nil τ cs cs2 hs)

/-- C10: the greedy merge loop terminates: every successful scan
shrinks the cluster list by exactly one, the loop (run with fuel equal
to the initial cluster count) always ends in a state where a full
pairwise scan finds no mergeable pair, and the final cluster count is
between 1 (for a nonempty intent set, so at most n-1 merges occur) and
the number of intents. -/
theorem c10_clustering_terminates (τ : ℚ) (cs cs2 : List Cluster)
    (intents : List (String × ℚ × List ℚ)) :
    (scanFrom τ cs = some cs2 → cs2.length + 1 = cs.length) ∧
    scanFrom τ (clusterIntents intents τ) = none ∧
    (clusterIntents intents τ).length ≤ intents.length ∧
    (intents ≠ [] → 1 ≤ (clusterIntents intents τ).length) := by
  refine ⟨scanFrom_length τ cs cs2, ?_, ?_, ?_⟩
  · exact loopFuel_fix τ (intents.map initCluster).length (intents.map initCluster)
      (le_refl _)
  · have := loopFuel_length_le τ (intents.map initCluster).length
      (intents.map initCluster)
    simpa [clusterIntents] using this
  · intro h
    have hne : intents.map initCluster ≠ [] := by
      simpa using h
    exact loopFuel_pos τ (intents.map initCluster).length (intents.map initCluster) hne

/-! ## C5: threshold monotonicity fails -/

/-- The intent set of the clustering counterexample: four intents with
counts 3, 4, 1, 4 and two-dimensional embeddings. -/
def exIntents : List (String × ℚ × List ℚ) :=
  [("a", 3, [1, 0]), ("b", 4, [1, 3]), ("c", 1, [2, -2]), ("d", 4, [2, 2])]

/-- Counterexample to C5: with thresholds 0.34 ≥ 0.30, the higher
threshold yields ONE cluster while the lower threshold yields TWO.  At
0.30 the pair (a, b) (cosine ≈ 0.316) merges first and the resulting
centroid blocks everything else; at 0.34 that pair is below the bar, so
(a, c) (cosine ≈ 0.707) merges instead and the merges chain down to a
single cluster.  Cluster count is not monotone in the threshold. -/
theorem c5_counterexample :
    ((3 : ℚ)/10 ≤ 17/50) ∧
    (clusterIntents exIntents (17/50)).length = 1 ∧
    (clusterIntents exIntents (3/10)).length = 2 := by
  refine ⟨by norm_num, ?_, ?_⟩ <;> with_unfolding_all decide

lemma normSq_nonneg (a : List ℚ) : 0 ≤ normSq a := by
  induction a with
  | nil => simp [normSq, dot]
  | cons x t ih =>
    unfold normSq dot at ih ⊢
    simp only [List.zipWith_cons_cons, List.sum_cons]
    exact add_nonneg (mul_self_nonneg x) ih

lemma simGE_mono (a b : List ℚ) (τ1 τ2 : ℚ) (hτ : τ2 ≤ τ1)
    (h : simGE a b τ1 = true) : simGE a b τ2 = true := by
  unfold simGE at h ⊢
  by_cases hl : b.length < a.length
  · simp [hl] at h
  · simp only [if_neg hl] at h ⊢
    by_cases hp : normSq a * normSq (b.take a.length) = 0
    · simp [hp] at h
    · simp only [if_neg hp] at h ⊢
      have hpos : 0 < normSq a * normSq (b.take a.length) :=
        lt_of_le_of_ne (mul_nonneg (normSq_nonneg a) (normSq_nonneg _)) (Ne.symm hp)
      by_cases hd : 0 ≤ dot a b
      · simp only [if_pos hd, Bool.or_eq_true, decide_eq_true_eq] at h ⊢
        rcases h with h | h
        · exact Or.inl (le_trans hτ h)
        · by_cases ht2 : τ2 ≤ 0
          · exact Or.inl ht2
          · refine Or.inr (le_trans ?_ h)
            have h2pos : 0 < τ2 := lt_of_not_le ht2
            have : τ2 ^ 2 ≤ τ1 ^ 2 := by nlinarith
            nlinarith
      · simp only [if_neg hd, Bool.and_eq_true, decide_eq_true_eq] at h ⊢
        obtain ⟨h1, h2⟩ := h
        refine ⟨le_trans hτ h1, le_trans h2 ?_⟩
        have : τ1 ^ 2 ≤ τ2 ^ 2 := by nlinarith
        nlinarith

lemma scanInner_isSome_mono (τ1 τ2 : ℚ) (hτ : τ2 ≤ τ1) (c : Cluster) :
    ∀ rest, (scanInner τ1 c rest).isSome = true →
      (scanInner τ2 c rest).isSome = true := by
  intro rest
  induction rest with
  | nil => intro h; exact Bool.noConfusion h
  | cons d ds ih =>
    intro h
    rw [scanInner] at h ⊢
    by_cases h2 : simGE c.embedding d.embedding τ2 = true
    · simp [h2]
    · have h1 : ¬ simGE c.embedding d.embedding τ1 = true := by
        intro hc
        exact h2 (simGE_mono _ _ _ _ hτ hc)
      rw [if_neg h1] at h
      rw [if_neg h2]
      cases hr : scanInner τ1 c ds with
      | none => rw [hr] at h; simp at h
      | some r =>
        have := ih (by rw [hr]; rfl)
        cases hr2 : scanInner τ2 c ds with
        | none => rw [hr2] at this; simp at this
        | some r2 => simp [hr2]

lemma scanFrom_isSome_mono (τ1 τ2 : ℚ) (hτ : τ2 ≤ τ1) :
    ∀ cs, (scanFrom τ1 cs).isSome = true → (scanFrom τ2 cs).isSome = true := by
  intro cs
  induction cs with
  | nil => intro h; exact Bool.noConfusion h
  | cons c rest ih =>
    intro h
    rw [scanFrom] at h ⊢
    cases hi2 : scanInner τ2 c rest with
    | some r => simp
    | none =>
      cases hi1 : scanInner τ1 c rest with
      | some r =>
        have := scanInner_isSome_mono τ1 τ2 hτ c rest (by rw [hi1]; rfl)
        rw [hi2] at this
        simp at this
      | none =>
        rw [hi1] at h
        cases hf1 : scanFrom τ1 rest with
        | none => rw [hf1] at h; simp at h
        | some r =>
          have := ih (by rw [hf1]; rfl)
          cases hf2 : scanFrom τ2 rest with
          | none => rw [hf2] at this; simp at this
          | some r2 => simp [hf2]

/-- C5 as amended: monotonicity holds pointwise — for fixed cluster
state, any pair mergeable at the higher threshold is mergeable at the
lower one, and if a full scan finds a merge at the higher threshold it
finds one (possibly different) at the lower — but the final number of
clusters is NOT monotone in the threshold, because an early low-bar
merge can reshape centroids and block later merges
(c5_counterexample). -/
theorem c5_amended_pointwise_monotonicity (a b : List ℚ) (τ1 τ2 : ℚ)
    (cs : List Cluster) (hτ : τ2 ≤ τ1) :
    (simGE a b τ1 = true → simGE a b τ2 = true) ∧
    ((scanFrom τ1 cs).isSome = true → (scanFrom τ2 cs).isSome = true) :=
  ⟨simGE_mono a b τ1 τ2 hτ, scanFrom_isSome_mono τ1 τ2 hτ cs⟩

/-- Witness for the amended c5 at concrete vectors, thresholds and a
concrete cluster pair. -/
theorem c5_witness :
    simGE [1, 0] [1, 1] (1/4) = true ∧
    (scanFrom (1/4) [cExA, ⟨"b", [⟨"b", 4⟩], 4, [1, 1]⟩]).isSome = true := by
  constructor
  · exact (c5_amended_pointwise_monotonicity [1, 0] [1, 1] (1/2) (1/4) [] (by norm_num)).1
      (by with_unfolding_all decide)
  · exact (c5_amended_pointwise_monotonicity [1, 0] [1, 1] (1/2) (1/4)
      [cExA, ⟨"b", [⟨"b", 4⟩], 4, [1, 1]⟩] (by norm_num)).2
      (by with_unfolding_all decide)

/-- Witness for c10 at the concrete intent set: the first merge at
threshold 0.30 shrinks four clusters to three, the loop result admits
no further merge, and the final count lies between 1 and 4. -/
theorem c10_witness :
    scanFrom (3/10) (clusterIntents exIntents (3/10)) = none ∧
    (clusterIntents exIntents (3/10)).length ≤ exIntents.length ∧
    1 ≤ (clusterIntents exIntents (3/10)).length := by
  refine ⟨(c10_clustering_terminates (3/10) [] [] exIntents).2.1,
    (c10_clustering_terminates (3/10) [] [] exIntents).2.2.1,
    (c10_clustering_terminates (3/10) [] [] exIntents).2.2.2 (by decide)⟩

/-! ## Correctness of the simGE encoding against the real-valued formula -/

/-- The square-based branch structure of simGE decides exactly the
real-number comparison dot(a,b) / (√(normSq a)·√(normSq b′)) ≥ τ of the
source (b′ the first a.length components of b), stated here without
division: the denominator is positive and τ·√(normSq a · normSq b′) is
at most the dot product. -/
lemma simGE_iff_real (a b : List ℚ) (τ : ℚ) (hl : ¬ b.length < a.length) :
    simGE a b τ = true ↔
      (0 < normSq a * normSq (b.take a.length) ∧
       (τ : ℝ) * Real.sqrt ((normSq a * normSq (b.take a.length) : ℚ) : ℝ) ≤
         ((dot a b : ℚ) : ℝ)) := by
  have hB : simGE a b τ =
      (if normSq a * normSq (b.take a.length) = 0 then false
       else if 0 ≤ dot a b then
         (decide (τ ≤ 0) ||
          decide (τ ^ 2 * (normSq a * normSq (b.take a.length)) ≤ (dot a b) ^ 2))
       else
         (decide (τ ≤ 0) &&
          decide ((dot a b) ^ 2 ≤ τ ^ 2 * (normSq a * normSq (b.take a.length))))) := by
    unfold simGE
    rw [if_neg hl]
  rw [hB]
  set p := normSq a * normSq (b.take a.length) with hpdef
  set d := dot a b with hddef
  by_cases hp0 : p = 0
  · simp [hp0]
  · have hppos : 0 < p :=
      lt_of_le_of_ne (mul_nonneg (normSq_nonneg _) (normSq_nonneg _)) (Ne.symm hp0)
    have hq : (0 : ℝ) < (p : ℝ) := by exact_mod_cast hppos
    have hs : 0 < Real.sqrt (p : ℝ) := Real.sqrt_pos.mpr hq
    have hsq : Real.sqrt (p : ℝ) ^ 2 = (p : ℝ) := Real.sq_sqrt hq.le
    rw [if_neg hp0]
    by_cases hd0 : 0 ≤ d
    · rw [if_pos hd0]
      simp only [Bool.or_eq_true, decide_eq_true_eq]
      have hdR : (0 : ℝ) ≤ (d : ℝ) := by exact_mod_cast hd0
      constructor
      · intro h
        refine ⟨hppos, ?_⟩
        by_cases ht : τ ≤ 0
        · have h1 : (τ : ℝ) * Real.sqrt (p : ℝ) ≤ 0 :=
            mul_nonpos_of_nonpos_of_nonneg (by exact_mod_cast ht) hs.le
          linarith
        · rcases h with ht2 | hle
          · exact absurd ht2 ht
          · have hcast : ((τ : ℝ)) ^ 2 * (p : ℝ) ≤ ((d : ℝ)) ^ 2 := by
              exact_mod_cast hle
            have hbase : ((τ : ℝ) * Real.sqrt (p : ℝ)) ^ 2 ≤ ((d : ℝ)) ^ 2 := by
              rw [mul_pow, hsq]
              exact hcast
            exact le_of_pow_le_pow_left₀ (by norm_num) hdR hbase
      · rintro ⟨-, hle⟩
        by_cases ht : τ ≤ 0
        · exact Or.inl ht
        · right
          have htR : (0 : ℝ) ≤ (τ : ℝ) := by
            exact_mod_cast le_of_lt (lt_of_not_le ht)
          have hpow := pow_le_pow_left₀ (mul_nonneg htR hs.le) hle 2
          rw [mul_pow, hsq] at hpow
          exact_mod_cast hpow
    · rw [if_neg hd0]
      simp only [Bool.and_eq_true, decide_eq_true_eq]
      have hdlt : d < 0 := lt_of_not_le hd0
      have hdR : ((d : ℝ)) < 0 := by exact_mod_cast hdlt
      constructor
      · rintro ⟨ht, hle⟩
        refine ⟨hppos, ?_⟩
        have htR : (τ : ℝ) ≤ 0 := by exact_mod_cast ht
        have hcast : ((d : ℝ)) ^ 2 ≤ ((τ : ℝ)) ^ 2 * (p : ℝ) := by exact_mod_cast hle
        have h1 : (-(d : ℝ)) ^ 2 ≤ (-(τ : ℝ) * Real.sqrt (p : ℝ)) ^ 2 := by
          rw [neg_sq, mul_pow, neg_sq, hsq]
          exact hcast
        have h2 := le_of_pow_le_pow_left₀ (by norm_num)
          (mul_nonneg (neg_nonneg.mpr htR) hs.le) h1
        linarith
      · rintro ⟨-, hle⟩
        have htR : (τ : ℝ) ≤ 0 := by
          by_contra hpos
          push_neg at hpos
          have : 0 < (τ : ℝ) * Real.sqrt (p : ℝ) := mul_pos hpos hs
          linarith
        refine ⟨by exact_mod_cast htR, ?_⟩
        have h1 : -(d : ℝ) ≤ -(τ : ℝ) * Real.sqrt (p : ℝ) := by linarith
        have h2 := pow_le_pow_left₀ (neg_nonneg.mpr hdR.le) h1 2
        rw [neg_sq, mul_pow, neg_sq, hsq] at h2
        exact_mod_cast h2

end CallAnalytics
